import Mathlib

/-!
# Verification of the daybook ledger engine

A shallow embedding of `src/daybook/Ledger.py` (classes `Transaction`,
`Account`, `Hints`, `Ledger`) and of the filter predicates of
`src/daybook/server/main.py`, together with theorems settling the
specification claims about them.

Modelling conventions:
* Python `datetime` values are modelled as integers (`Date := Int`); the only
  operations the code uses are total-order comparisons.
* Python numeric amounts (`float`/`int`) are modelled as exact rationals `ℚ`.
* Python `set` is modelled as `Finset String`.
* Python `dict` (insertion-ordered, unique keys) is modelled as an
  association list `List (String × α)`; `dictSet` replaces the value of an
  existing key in place and appends a fresh key at the end, exactly as a
  Python dict assignment does.
* Python exceptions are modelled with `Except PyErr`; `PyErr` distinguishes
  `ValueError` (carrying the message) from `IndexError`, because
  `Ledger.loadCsv` catches only `ValueError`.
* Object identity: the ledger keeps exactly one canonical `Account` per name
  (keyed by name in `Ledger.accounts`) and one canonical `Transaction` per
  identity tuple, so the Python identity tests (`self is trans.src`, dict
  lookups keyed by `Transaction.__hash__`/`__eq__`) are modelled by equality
  of names / identity tuples.  An account's `transactions` index stores the
  identity tuples (`TKey`), which carry every field `balance` reads.
-/

set_option autoImplicit false

namespace Daybook

/-- Python `datetime` stand-in: only `≤` comparisons are used by the code. -/
abbrev Date := Int

/-- Python exceptions relevant to the ledger code.  `Ledger.loadCsv` catches
`ValueError` only, so `IndexError` must be kept distinct. -/
inductive PyErr where
  | valueError (msg : String)
  | indexError
deriving DecidableEq, Repr

instance {α : Type} [DecidableEq α] : DecidableEq (Except PyErr α) := fun x y =>
  match x, y with
  | .ok a, .ok b =>
      if h : a = b then .isTrue (by rw [h]) else .isFalse (by simp [h])
  | .error e, .error f =>
      if h : e = f then .isTrue (by rw [h]) else .isFalse (by simp [h])
  | .ok _, .error _ => .isFalse (by simp)
  | .error _, .ok _ => .isFalse (by simp)

/-- Maps `.ok` to `true` and `.error` to `false`; used to state that a call raised. -/
def exceptOk {α : Type} : Except PyErr α → Bool
  | .ok _ => true
  | .error _ => false

/-- Python `str.split(sep)` with a one-character separator, on `List Char`:
splitting the empty text yields one empty token, a separator closes the
current token. -/
def splitOnChar (sep : Char) : List Char → List (List Char)
  | [] => [[]]
  | c :: rest =>
      match splitOnChar sep rest with
      | h :: t => if c = sep then [] :: h :: t else (c :: h) :: t
      | [] => if c = sep then [[], []] else [[c]]

/-- Python `str.split(sep)` with a one-character separator. -/
def pySplit (s : String) (sep : Char) : List String :=
  (splitOnChar sep s.data).map String.mk

/-- The identity tuple of a transaction: `(date, src.name, dest.name, amount)`.
This is exactly the data read by `Transaction.__hash__` / `__eq__`, and also
exactly the data `Account.balance` reads from each indexed transaction. -/
structure TKey where
  date : Date
  srcName : String
  destName : String
  amount : ℚ
deriving DecidableEq, Repr

/-- Model of `class Account` (Ledger.py:65).  The `transactions` field is the account's
index of transactions touching it, stored as identity tuples (see module
docstring). -/
structure Account where
  name : String
  type_ : String
  tags : Finset String
  transactions : List TKey
deriving DecidableEq

/-- The closed type set `Account.types` (Ledger.py:77). -/
def Account.types : List String :=
  ["asset", "expense", "income", "liability", "receivable"]

/-- Model of `Account.__init__` (Ledger.py:79-90): rejects an unknown `type_` and a
name containing a space, filters empty tags, starts with no transactions. -/
def Account.init (name : String) (type_ : String) (tags : List String) :
    Except PyErr Account :=
  if type_ ∉ Account.types then
    .error (.valueError "type_ must be in Account.types")
  else if name.data.contains ' ' then
    .error (.valueError "Account names may not contain spaces.")
  else
    .ok { name := name, type_ := type_,
          tags := ((tags.filter (fun x => x ≠ "")).toFinset : Finset String),
          transactions := [] }

/-- Model of `class Transaction` (Ledger.py:12).  `src`/`dest` are the account values
the transaction was constructed with. -/
structure Transaction where
  date : Date
  src : Account
  dest : Account
  amount : ℚ
  tags : Finset String
  notes : String
deriving DecidableEq

/-- The identity tuple used by `Transaction.__hash__` / `__eq__`
(Ledger.py:51-62). -/
def Transaction.key (t : Transaction) : TKey :=
  { date := t.date, srcName := t.src.name, destName := t.dest.name,
    amount := t.amount }

/-- Value of a decimal digit character. -/
def digitVal (c : Char) : Option Nat :=
  if c.isDigit then some (c.toNat - '0'.toNat) else none

/-- Parse a non-empty all-digit string to a number; anything else is `none`. -/
def strToNat? (s : String) : Option Nat :=
  s.data.foldl
    (fun acc c =>
      match acc, digitVal c with
      | some n, some d => some (n * 10 + d)
      | _, _ => none)
    (if s.data.isEmpty then none else some 0)

/-- Stand-in for the external `dateparser.parse`: some strings parse to a
date, the rest yield `none` (Python: a falsy result, turned into
`ValueError('Invalid date.')` by `Transaction.__init__`).  The claims depend
only on the existence of both outcomes, never on a concrete date format. -/
def parseDate (s : String) : Option Date := (strToNat? s).map Int.ofNat

/-- Model of `Transaction.__init__` (Ledger.py:14-31) as called from `loadCsv` with a
string date: parse the date (raising `ValueError` when it does not parse),
filter empty tags.  The `src`/`dest`/`amount` type checks cannot fail here
because the embedding is typed. -/
def Transaction.make (dateStr : String) (src dest : Account) (amount : ℚ)
    (tags : List String) (notes : String) : Except PyErr Transaction :=
  match parseDate dateStr with
  | none => .error (.valueError "Invalid date.")
  | some d =>
      .ok { date := d, src := src, dest := dest, amount := amount,
            tags := ((tags.filter (fun x => x ≠ "")).toFinset : Finset String),
            notes := notes }

/-- Model of `Transaction.addTags` (Ledger.py:33-35): union the non-empty tags. -/
def Transaction.addTags (t : Transaction) (tags : Finset String) : Transaction :=
  { t with tags := t.tags ∪ tags.filter (fun x => x ≠ "") }

/-- The include condition of `Account.balance` (Ledger.py:129-132).  The
Python expression is a single disjunction (`and` binds tighter than `or`):
`(not start and not end) or (start and end and start <= d <= end) or
(start and start <= d) or (end and d <= end)`; splitting on which bounds are
present gives exactly these four cases (when both bounds are present the
second, third and fourth disjuncts are all live). -/
def inRange : Option Date → Option Date → Date → Bool
  | none, none, _ => true
  | some s, some e, d => (decide (s ≤ d) && decide (d ≤ e)) || decide (s ≤ d) || decide (d ≤ e)
  | some s, none, d => decide (s ≤ d)
  | none, some e, d => decide (d ≤ e)

/-- Model of `Account.balance` (Ledger.py:115-139): fold over the account's
transaction index, subtracting the amount when this account is the source and
adding it when it is the destination (both, i.e. a net zero, when it is both),
for every transaction passing the include condition. -/
def Account.balance (a : Account) (start : Option Date) (end_ : Option Date) : ℚ :=
  a.transactions.foldl
    (fun balance trans =>
      if inRange start end_ trans.date then
        let balance := if a.name = trans.srcName then balance - trans.amount else balance
        if a.name = trans.destName then balance + trans.amount else balance
      else balance)
    0

/-- Model of `Account.createFromList` (Ledger.py:141-182): positional token parsing.
One token: name only.  Two tokens: name plus either a recognized type or a
colon-separated tag list.  Three tokens: name, type, tags (empty tag tokens
dropped).  Any other arity raises `ValueError`. -/
def Account.createFromList (l_ : List String) : Except PyErr Account :=
  match l_ with
  | [n] => Account.init n "asset" []
  | [n, x] =>
      if x ∈ Account.types then Account.init n x []
      else Account.init n "asset" (pySplit x ':')
  | [n, ty, tg] => Account.init n ty ((pySplit tg ':').filter (fun x => x ≠ ""))
  | _ => .error (.valueError "createFromList: bad arity")

/-- Python dict lookup on an association list (first matching key). -/
def dictGet {α : Type} : List (String × α) → String → Option α
  | [], _ => none
  | (k, v) :: rest, n => if k = n then some v else dictGet rest n

/-- Python dict assignment `m[n] = a`: replace the value of an existing key in
place, otherwise append at the end (insertion order). -/
def dictSet {α : Type} : List (String × α) → String → α → List (String × α)
  | [], n, a => [(n, a)]
  | (k, v) :: rest, n, a =>
      if k = n then (k, a) :: rest else (k, v) :: dictSet rest n a

/-- Python substring test `needle in hay` on strings. -/
def isSubstrOf (needle hay : String) : Bool := decide (needle.data <:+: hay.data)

/-- Model of `class Hints` (Ledger.py:185): a substring → canonical-name mapping kept
in load (insertion) order. -/
structure Hints where
  hints : List (String × String)
deriving DecidableEq

/-- Model of `Hints.suggest` (Ledger.py:221-229): exact key match first, then the
first key in load order occurring anywhere within `string`, else `''`. -/
def Hints.suggest (h : Hints) (string : String) : String :=
  match h.hints.find? (fun p => p.1 = string) with
  | some p => p.2
  | none =>
      match h.hints.find? (fun p => isSubstrOf p.1 string) with
      | some p => p.2
      | none => ""

/-- Model of `class Ledger` (Ledger.py:232): account mapping, transaction sequence
(identity tuples of the canonical transactions, in insertion order), and the
dedup mapping `unique_transactions` (canonical transactions looked up by
identity tuple). -/
structure Ledger where
  accounts : List (String × Account)
  transactions : List TKey
  uniqueTransactions : List Transaction
  hints : Hints
deriving DecidableEq

/-- Model of `Ledger.__init__` (Ledger.py:234-243). -/
def emptyLedger (h : Hints) : Ledger :=
  { accounts := [], transactions := [], uniqueTransactions := [], hints := h }

/-- Lookup in `unique_transactions` by identity (`t in self.unique_transactions`
followed by `self.unique_transactions[t]`). -/
def findCanon (us : List Transaction) (k : TKey) : Option Transaction :=
  us.find? (fun u => u.key = k)

/-- In-place mutation of the canonical transaction found under `m.key`:
replace the first entry with that identity. -/
def replaceCanon : List Transaction → Transaction → List Transaction
  | [], _ => []
  | u :: rest, m => if u.key = m.key then m :: rest else u :: replaceCanon rest m

/-- Model of `Ledger.addAccount` (Ledger.py:394-422): merge tags into an existing
account of the same name (type untouched), otherwise register a fresh copy
`Account(account.name, account.type, account.tags)`; return the canonical
account. -/
def Ledger.addAccount (lg : Ledger) (account : Account) : Ledger × Account :=
  match dictGet lg.accounts account.name with
  | some canon =>
      let canon2 : Account :=
        { canon with tags := canon.tags ∪ account.tags.filter (fun x => x ≠ "") }
      ({ lg with accounts := dictSet lg.accounts account.name canon2 }, canon2)
  | none =>
      let fresh : Account :=
        { name := account.name, type_ := account.type_,
          tags := account.tags.filter (fun x => x ≠ ""), transactions := [] }
      ({ lg with accounts := dictSet lg.accounts account.name fresh }, fresh)

/-- Model of `t.src.transactions.append(t)`: append the transaction's identity tuple to
the index of the account stored under name `n` (always present when called). -/
def appendTransTo (m : List (String × Account)) (n : String) (k : TKey) :
    List (String × Account) :=
  match dictGet m n with
  | some a => dictSet m n { a with transactions := a.transactions ++ [k] }
  | none => m

/-- Model of `Ledger.addTransaction` (Ledger.py:329-364).  New identity: make a copy of
`t`, rebind its accounts to canonical ones via `addAccount`, append to the
ledger's sequence, both account indexes, and the dedup mapping.  Known
identity: merge `t`'s tags into the canonical transaction and return it. -/
def Ledger.addTransaction (lg : Ledger) (t : Transaction) : Ledger × Transaction :=
  match findCanon lg.uniqueTransactions t.key with
  | none =>
      -- t = Transaction(t.date, t.src, t.dest, t.amount, t.tags, t.notes):
      -- the ledger's own copy, whose src/dest are then rebound to the
      -- canonical accounts (r1 : ledger and account after `addAccount(t.src)`,
      -- r2 : after `addAccount(t.dest)`)
      let r1 := lg.addAccount t.src
      let r2 := r1.1.addAccount t.dest
      let tC : Transaction :=
        { date := t.date, src := r1.2, dest := r2.2, amount := t.amount,
          tags := t.tags.filter (fun x => x ≠ ""), notes := t.notes }
      let lg3 : Ledger :=
        { r2.1 with
          transactions := r2.1.transactions ++ [tC.key],
          accounts := appendTransTo (appendTransTo r2.1.accounts r1.2.name tC.key)
                        r2.2.name tC.key,
          uniqueTransactions := r2.1.uniqueTransactions ++ [tC] }
      (lg3, tC)
  | some internal =>
      let merged := internal.addTags t.tags
      ({ lg with uniqueTransactions := replaceCanon lg.uniqueTransactions merged },
       merged)

/-- Model of `Ledger.addTransactions` (Ledger.py:252-266): left-to-right fold of
`addTransaction` over the inputs accepted by `func`. -/
def Ledger.addTransactions (lg : Ledger) (ts : List Transaction)
    (func : Transaction → Bool) : Ledger × List Transaction :=
  match ts with
  | [] => (lg, [])
  | t :: rest =>
      if func t then
        let r := lg.addTransaction t
        let rs := r.1.addTransactions rest func
        (rs.1, r.2 :: rs.2)
      else
        lg.addTransactions rest func

/-- Model of `Ledger.suggestAccount` (Ledger.py:366-392): split on spaces dropping
empty tokens (`l_[0]` raises `IndexError` when no token remains), substitute
`this`, consult hints when the first token is not a known account, delegate to
`Account.createFromList`. -/
def Ledger.suggestAccount (lg : Ledger) (string : String) (thisname : String) :
    Except PyErr Account :=
  match (pySplit string ' ').filter (fun x => x ≠ "") with
  | [] => .error .indexError
  | x :: rest =>
      let x := if x = "this" then thisname else x
      let l_ := x :: rest
      let l_ :=
        if (dictGet lg.accounts x).isNone then
          let suggestion := lg.hints.suggest (String.intercalate " " l_)
          if suggestion ≠ "" then [suggestion] else l_
        else l_
      Account.createFromList l_

/-- One CSV record with the header fields read by `loadCsv`
(Ledger.py:307-315). -/
structure Row where
  date : String
  src : String
  dest : String
  amount : String
  tags : String
  notes : String
deriving DecidableEq

/-- Stand-in for Python `float(s)`: some strings parse to a number, the rest
raise `ValueError`.  Python float values are modelled as exact rationals; the
claims depend only on the existence of both outcomes. -/
def parseFloat (s : String) : Option ℚ := (strToNat? s).map (fun n => (n : ℚ))

/-- Model of `os.path.splitext(os.path.basename(p))[0]` for ordinary paths such as
`dir/name.csv`: the last path component with its last extension removed. -/
def basenameNoExt (p : String) : String :=
  let base := (pySplit p '/').getLastD p
  let parts := pySplit base '.' 
  if parts.length ≤ 1 then base else String.intercalate "." parts.dropLast

/-- The body of `loadCsv`'s per-row `try` block (Ledger.py:306-318): resolve
src and dest, parse the amount, split the tags, construct the candidate
transaction (which parses the date). -/
def Ledger.parseRow (lg : Ledger) (thisname : String) (row : Row) :
    Except PyErr Transaction :=
  match lg.suggestAccount row.src thisname with
  | .error e => .error e
  | .ok src =>
      match lg.suggestAccount row.dest thisname with
      | .error e => .error e
      | .ok dest =>
          match parseFloat row.amount with
          | none => .error (.valueError "could not convert string to float")
          | some amount =>
              Transaction.make row.date src dest amount
                ((pySplit row.tags ':').filter (fun x => x ≠ "")) row.notes

/-- The file-level error message raised by `loadCsv` when a row raises
`ValueError` (Ledger.py:320-322). -/
def lineErrorMsg (csvfile : String) (line_num : Nat) : String :=
  s!"CSV {csvfile}: Line {line_num} generated an error."

/-- The row loop of `loadCsv` (Ledger.py:303-324).  `line_num` is the value of
the variable of that name, which the source initializes to `1` before the loop
and never increments.  A `ValueError` from a row is caught and re-raised as
the file-level error naming `csvfile` and `line_num`; any other error (the
`IndexError` from `suggestAccount` on a blank field) propagates unchanged. -/
def Ledger.loadRows (lg : Ledger) (csvfile : String) (thisname : String)
    (line_num : Nat) : List Row → Except PyErr (List Transaction)
  | [] => .ok []
  | row :: rest =>
      match lg.parseRow thisname row with
      | .error (.valueError _) =>
          .error (.valueError (lineErrorMsg csvfile line_num))
      | .error e => .error e
      | .ok t =>
          match lg.loadRows csvfile thisname line_num rest with
          | .error e => .error e
          | .ok ts => .ok (t :: ts)

/-- Model of `Ledger.loadCsv` (Ledger.py:282-327): parse every row of the file into
candidate transactions first — this phase only reads the ledger — and only
when all rows parsed hand the candidates to `addTransactions` (the commit,
which \"cannot raise\"). -/
def Ledger.loadCsv (lg : Ledger) (csvfile : String) (rows : List Row) :
    Except PyErr (Ledger × List Transaction) :=
  let thisname := basenameNoExt csvfile
  match lg.loadRows csvfile thisname 1 rows with
  | .error e => .error e
  | .ok newtrans => .ok (lg.addTransactions newtrans (fun _ => true))

/-! ## Server-side filter predicates (src/daybook/server/main.py)

The server's own `Ledger` collaborator is a different version not present
under `src/`; per the spec (§3, §9) its transactions still reference `Account`
values for `src`/`dest`, while `amount` is a structured value with per-side
currencies.  The filter predicates below are translated from
`src/daybook/server/main.py` over that transaction shape. -/

/-- Modelled from the spec: the structured amount of the server's ledger
version, carrying a currency for each side (spec §9: "one collaborator file
... treats `amount` as a structured value with per-side currencies
(`amount.src_currency`/`amount.dest_currency`)"). -/
structure CurrencyAmount where
  src_currency : String
  dest_currency : String
  value : ℚ
deriving DecidableEq

/-- Modelled from the spec: a transaction as held by the server's ledger
version — `src`/`dest` are Account references (spec §3) and `amount` carries
per-side currencies (spec §9). -/
structure ServerTransaction where
  date : Date
  src : Account
  dest : Account
  amount : CurrencyAmount
  tags : Finset String
deriving DecidableEq

/-- Python `==` between an `Account` object and a `str`, as evaluated by
`t.src in accounts` (main.py:41) where `accounts` is a set of name strings
(main.py:107): `Account` defines no `__eq__`, so default identity comparison
applies and an account object never equals a string. -/
def accountEqPyStr (_a : Account) (_s : String) : Bool := false

/-- Model of `in_start` (main.py:32-33). -/
def in_start (start : Option Date) (t : ServerTransaction) : Bool :=
  match start with
  | none => true
  | some s => decide (s ≤ t.date)

/-- Model of `in_end` (main.py:36-37). -/
def in_end (end_ : Option Date) (t : ServerTransaction) : Bool :=
  match end_ with
  | none => true
  | some e => decide (t.date ≤ e)

/-- Model of `in_accounts` (main.py:40-41): `not accounts or t.src in accounts or
t.dest in accounts`.  `accounts` is `None` or a set of account-name strings;
set membership tests the `Account` object itself against each string via
`accountEqPyStr`. -/
def in_accounts (accounts : Option (Finset String)) (t : ServerTransaction) : Bool :=
  match accounts with
  | none => true
  | some s =>
      decide (s = ∅) || decide (∃ n ∈ s, accountEqPyStr t.src n)
        || decide (∃ n ∈ s, accountEqPyStr t.dest n)

/-- Model of `in_currencies` (main.py:44-46). -/
def in_currencies (currencies : Option (List String)) (t : ServerTransaction) : Bool :=
  match currencies with
  | none => true
  | some cs =>
      let expected := [t.amount.src_currency, t.amount.dest_currency]
      decide (cs = []) || decide (0 < (cs.filter (fun c => c ∈ expected)).length)

/-- Model of `in_types` (main.py:49-50): account *types* are compared as strings, so
this criterion does match. -/
def in_types (types : Option (Finset String)) (t : ServerTransaction) : Bool :=
  match types with
  | none => true
  | some s =>
      decide (s = ∅) || decide (t.src.type_ ∈ s) || decide (t.dest.type_ ∈ s)

/-- Model of `in_tags` (main.py:53-54). -/
def in_tags (tags : Option (Finset String)) (t : ServerTransaction) : Bool :=
  match tags with
  | none => true
  | some s => decide (s = ∅) || decide (0 < (s ∩ t.tags).card)

/-- Model of `filter_transaction` (main.py:57-76): conjunction of the six criteria,
absent criteria being don't-cares.  `dump` (main.py:87-113) passes `None` for
every criterion whose request field is empty, and converts present fields to
the sets used here. -/
def filter_transaction (t : ServerTransaction) (start end_ : Option Date)
    (accounts : Option (Finset String)) (currencies : Option (List String))
    (types : Option (Finset String)) (tags : Option (Finset String)) : Bool :=
  in_start start t && in_end end_ t && in_accounts accounts t
    && in_currencies currencies t && in_types types t && in_tags tags t

/-! ## Derived notions used to state the double-entry invariant -/

/-- The contribution of one indexed transaction to the unbounded balance of
an account named `n`: subtract the amount when `n` is the source name, add it
when `n` is the destination name (both when they coincide). -/
def contrib (n : String) (k : TKey) : ℚ :=
  (if n = k.srcName then -k.amount else 0) + (if n = k.destName then k.amount else 0)

/-- Sum of unbounded balances over an account mapping. -/
def sumA (m : List (String × Account)) : ℚ :=
  (m.map (fun p => p.2.balance none none)).sum

/-- Sum over every account in the ledger's account mapping of that account's
balance with no bounds. -/
def Ledger.sumBalances (lg : Ledger) : ℚ := sumA lg.accounts

/-- Every entry of an account mapping is stored under its own name (holds for
every ledger, since `addAccount` keys accounts by their name). -/
def accountsNamed (m : List (String × Account)) : Prop := ∀ p ∈ m, p.2.name = p.1

/-- The double-entry invariant together with the naming invariant that
sustains it. -/
def LedgerInv (lg : Ledger) : Prop :=
  accountsNamed lg.accounts ∧ lg.sumBalances = 0

/-- Ledger states reachable from an empty ledger by a sequence of
`addTransaction` calls and successful `loadCsv` calls. -/
inductive Reachable : Ledger → Prop where
  | empty (h : Hints) : Reachable (emptyLedger h)
  | addTrans {lg : Ledger} (t : Transaction) :
      Reachable lg → Reachable (lg.addTransaction t).1
  | load {lg lg2 : Ledger} {ts : List Transaction}
      (csvfile : String) (rows : List Row) :
      Reachable lg → lg.loadCsv csvfile rows = .ok (lg2, ts) → Reachable lg2

/-! ## Concrete instances used by witnesses and counterexamples -/

/-- An empty hint resolver. -/
def emptyHints : Hints := ⟨[]⟩

/-- A fresh asset account named `a`. -/
def aA : Account := { name := "a", type_ := "asset", tags := ∅, transactions := [] }

/-- A fresh asset account named `b`. -/
def aB : Account := { name := "b", type_ := "asset", tags := ∅, transactions := [] }

/-- A transaction moving 5 from `a` to `b`, tagged `x`. -/
def tX : Transaction :=
  { date := 0, src := aA, dest := aB, amount := 5, tags := {"x"}, notes := "" }

/-- Same identity tuple as `tX` but tagged `y` instead. -/
def tY : Transaction :=
  { date := 0, src := aA, dest := aB, amount := 5, tags := {"y"}, notes := "" }

/-- The ledger obtained by committing `tX` to an empty ledger. -/
def lgX : Ledger := ((emptyLedger emptyHints).addTransaction tX).1

/-- A row every field of which parses. -/
def rowGood : Row :=
  { date := "1", src := "a", dest := "b", amount := "1", tags := "", notes := "" }

/-- A row whose date does not parse (and everything else does). -/
def rowBadDate : Row :=
  { date := "x", src := "a", dest := "b", amount := "1", tags := "", notes := "" }

/-- A row whose src field is blank (and whose date also does not parse). -/
def rowBlankSrc : Row :=
  { date := "notadate", src := "", dest := "b", amount := "1", tags := "", notes := "" }

/-- A ledger holding only the account `aA`. -/
def lgA : Ledger :=
  { accounts := [("a", aA)], transactions := [], uniqueTransactions := [],
    hints := emptyHints }

/-- An account value colliding with `aA` on name but carrying a different
type and a tag. -/
def accW : Account :=
  { name := "a", type_ := "expense", tags := {"w"}, transactions := [] }

/-- An account named `a` holding one incoming transaction of 100 dated 10. -/
def acctC : Account :=
  { name := "a", type_ := "asset", tags := ∅,
    transactions := [{ date := 10, srcName := "x", destName := "a", amount := 100 }] }

/-- A server-side transaction from account `a` to account `b`. -/
def stAB : ServerTransaction :=
  { date := 0, src := aA, dest := aB,
    amount := { src_currency := "dollars", dest_currency := "dollars", value := 1 },
    tags := ∅ }

/-! ## Helper lemmas -/

theorem dictGet_dictSet_self {α : Type} (m : List (String × α)) (n : String) (a : α) :
    dictGet (dictSet m n a) n = some a := by
  induction m with
  | nil => simp [dictGet, dictSet]
  | cons p rest ih =>
      obtain ⟨k, v⟩ := p
      by_cases h : k = n <;> simp [dictGet, dictSet, h, ih]

theorem dictGet_dictSet_ne {α : Type} (m : List (String × α)) (n n' : String) (a : α)
    (h : n' ≠ n) : dictGet (dictSet m n a) n' = dictGet m n' := by
  have h' : n ≠ n' := h.symm
  induction m with
  | nil => simp [dictGet, dictSet, h']
  | cons p rest ih =>
      obtain ⟨k, v⟩ := p
      by_cases hk : k = n
      · subst hk
        simp [dictGet, dictSet, h']
      · simp [dictGet, dictSet, hk, ih]

theorem dictGet_mem {α : Type} {m : List (String × α)} {n : String} {a : α}
    (h : dictGet m n = some a) : (n, a) ∈ m := by
  induction m with
  | nil => simp [dictGet] at h
  | cons p rest ih =>
      obtain ⟨k, v⟩ := p
      by_cases hk : k = n
      · subst hk
        simp [dictGet] at h
        simp [h]
      · simp [dictGet, hk] at h
        simp [ih h]

theorem dictSet_of_get_none {α : Type} (m : List (String × α)) (n : String) (a : α)
    (h : dictGet m n = none) : dictSet m n a = m ++ [(n, a)] := by
  induction m with
  | nil => simp [dictSet]
  | cons p rest ih =>
      obtain ⟨k, v⟩ := p
      by_cases hk : k = n
      · simp [dictGet, hk] at h
      · simp [dictGet, hk] at h
        simp [dictSet, hk, ih h]

theorem replaceCanon_length (us : List Transaction) (m : Transaction) :
    (replaceCanon us m).length = us.length := by
  induction us with
  | nil => rfl
  | cons u rest ih => by_cases h : u.key = m.key <;> simp [replaceCanon, h, ih]

theorem findCanon_key {us : List Transaction} {k : TKey} {u : Transaction}
    (h : findCanon us k = some u) : u.key = k := by
  have := List.find?_some h
  simpa using this

theorem findCanon_replaceCanon {us : List Transaction} {k : TKey} {u : Transaction}
    (m : Transaction) (hk : m.key = k) (h : findCanon us k = some u) :
    findCanon (replaceCanon us m) k = some m := by
  induction us with
  | nil => simp [findCanon] at h
  | cons v rest ih =>
      by_cases hv : v.key = k
      · have : v.key = m.key := by rw [hv, hk]
        simp [replaceCanon, this, findCanon, List.find?_cons_of_pos, hk]
      · have hvm : ¬ v.key = m.key := by rw [hk]; exact hv
        have hrest : findCanon rest k = some u := by
          simpa [findCanon, List.find?_cons_of_neg, hv] using h
        simpa [replaceCanon, hvm, findCanon, List.find?_cons_of_neg, hv] using ih hrest

/-! ## Claim C5: addAccount on an existing name merges tags only -/

/-- Claim C5: When the ledger already holds an account named `account.name`,
`Ledger.addAccount` unions the argument's non-empty tags into the canonical
account and returns that canonical account; its type, name and transaction
index are unchanged, every other account is unchanged, and the ledger's
transaction sequence and dedup mapping are unchanged.  The argument's type is
never written over the existing type. -/
theorem addAccount_existing_merges_tags_only
    (lg : Ledger) (account canon : Account)
    (h : dictGet lg.accounts account.name = some canon) :
    (lg.addAccount account).2
        = { canon with tags := canon.tags ∪ account.tags.filter (fun x => x ≠ "") }
      ∧ (lg.addAccount account).2.type_ = canon.type_
      ∧ (lg.addAccount account).2.name = canon.name
      ∧ (lg.addAccount account).2.transactions = canon.transactions
      ∧ dictGet (lg.addAccount account).1.accounts account.name
          = some (lg.addAccount account).2
      ∧ (∀ n, n ≠ account.name →
          dictGet (lg.addAccount account).1.accounts n = dictGet lg.accounts n)
      ∧ (lg.addAccount account).1.transactions = lg.transactions
      ∧ (lg.addAccount account).1.uniqueTransactions = lg.uniqueTransactions
      ∧ (lg.addAccount account).1.hints = lg.hints := by
  simp only [Ledger.addAccount, h]
  refine ⟨trivial, trivial, trivial, trivial, dictGet_dictSet_self .., ?_, trivial,
    trivial, trivial⟩
  intro n hn
  exact dictGet_dictSet_ne _ _ _ _ hn

/-- Witness for C5 at a concrete input: merging an account named `a` carrying
tag `w` and type `expense` into a ledger that already holds `aA` (type
`asset`) keeps type `asset` and acquires tag `w`. -/
theorem addAccount_existing_merges_tags_only_witness :
    (lgA.addAccount accW).2
      = { name := "a", type_ := "asset", tags := {"w"}, transactions := [] } := by
  have h := addAccount_existing_merges_tags_only lgA accW aA (by decide)
  rw [h.1]
  decide

/-! ## Claim C1: addTransaction deduplicates by identity tuple -/

/-- Claim C1: When a transaction with `t`'s identity tuple is already held in
the dedup mapping, `Ledger.addTransaction` leaves the transaction sequence,
the account mapping and the size of the dedup mapping unchanged, unions `t`'s
non-empty tags into the existing canonical transaction, and returns that
canonical transaction, which is the one now held under the identity tuple. -/
theorem addTransaction_duplicate_merges_tags
    (lg : Ledger) (t internal : Transaction)
    (h : findCanon lg.uniqueTransactions t.key = some internal) :
    (lg.addTransaction t).1.transactions = lg.transactions
      ∧ (lg.addTransaction t).1.accounts = lg.accounts
      ∧ (lg.addTransaction t).1.uniqueTransactions.length
          = lg.uniqueTransactions.length
      ∧ (lg.addTransaction t).2 = internal.addTags t.tags
      ∧ findCanon (lg.addTransaction t).1.uniqueTransactions t.key
          = some (internal.addTags t.tags) := by
  have hk : (internal.addTags t.tags).key = t.key := by
    have hk0 : internal.key = t.key := findCanon_key h
    exact hk0
  simp only [Ledger.addTransaction, h]
  exact ⟨trivial, trivial, replaceCanon_length .., trivial,
    findCanon_replaceCanon (internal.addTags t.tags) hk h⟩

/-- Witness for C1 at a concrete input: re-adding the movement of `tX` with a
different tag set (`tY`) to the ledger `lgX` keeps the transaction sequence
and merges the tags. -/
theorem addTransaction_duplicate_merges_tags_witness :
    (lgX.addTransaction tY).1.transactions = lgX.transactions
      ∧ (lgX.addTransaction tY).2.tags = ({"x", "y"} : Finset String) := by
  have h := addTransaction_duplicate_merges_tags lgX tY
    ((emptyLedger emptyHints).addTransaction tX).2 (by decide)
  refine ⟨h.1, ?_⟩
  rw [h.2.2.2.1]
  decide

/-! ## Claim C6: createFromList arity cases -/

/-- Claim C6: `Account.createFromList` maps token lists by arity exactly as
specified: `["n"]` → name `n`, default type `asset`, no tags;
`["n","asset"]` → type `asset`, no tags; `["n","a:b"]` (second token not a
type) → default type, tags `{a,b}`; `["n","income","x:y"]` → type `income`,
tags `{x,y}`; and `["n","bogus","x"]`, `[]`, and every list of 4 or more
tokens fail with `ValueError`. -/
theorem createFromList_cases :
    Account.createFromList ["n"]
        = .ok { name := "n", type_ := "asset", tags := ∅, transactions := [] }
      ∧ Account.createFromList ["n", "asset"]
        = .ok { name := "n", type_ := "asset", tags := ∅, transactions := [] }
      ∧ Account.createFromList ["n", "a:b"]
        = .ok { name := "n", type_ := "asset", tags := {"a", "b"}, transactions := [] }
      ∧ Account.createFromList ["n", "income", "x:y"]
        = .ok { name := "n", type_ := "income", tags := {"x", "y"}, transactions := [] }
      ∧ exceptOk (Account.createFromList ["n", "bogus", "x"]) = false
      ∧ exceptOk (Account.createFromList []) = false
      ∧ (∀ l : List String, 4 ≤ l.length → exceptOk (Account.createFromList l) = false) := by
  refine ⟨by decide, by decide, by decide, by decide, by decide, by decide, ?_⟩
  intro l hl
  match l, hl with
  | a :: b :: c :: d :: rest, _ => rfl

/-- Witness for the quantified conjunct of C6 at a concrete 4-token input. -/
theorem createFromList_cases_witness :
    exceptOk (Account.createFromList ["a", "b", "c", "d"]) = false :=
  createFromList_cases.2.2.2.2.2.2 ["a", "b", "c", "d"] (by decide)

/-! ## Claim C7: Hints.suggest resolution order -/

theorem find?_key_eq_of_nodup {l : List (String × String)}
    (hnd : (l.map Prod.fst).Nodup) {s v : String} (hmem : (s, v) ∈ l) :
    l.find? (fun p => p.1 = s) = some (s, v) := by
  induction l with
  | nil => simp at hmem
  | cons p rest ih =>
      obtain ⟨k, w⟩ := p
      rw [List.map_cons, List.nodup_cons] at hnd
      by_cases hk : k = s
      · subst hk
        have hwv : w = v := by
          rcases List.mem_cons.1 hmem with h1 | h1
          · simp only [Prod.mk.injEq] at h1
            exact h1.2.symm
          · exact absurd (List.mem_map_of_mem Prod.fst h1) (by simpa using hnd.1)
        subst hwv
        simp [List.find?_cons_of_pos]
      · have h1 : (s, v) ∈ rest := by
          rcases List.mem_cons.1 hmem with h1 | h1
          · simp only [Prod.mk.injEq] at h1
            exact absurd h1.1.symm hk
          · exact h1
        rw [List.find?_cons_of_neg _ (by simpa using hk)]
        exact ih hnd.2 h1

/-- Claim C7: For every hint mapping and input text, `Hints.suggest` returns
the canonical name bound to the input when the input is exactly a known
substring key (with keys unique, as in a Python dict); otherwise the
canonical name of the first key in loaded order occurring anywhere within
the input; otherwise the empty string. -/
theorem hints_suggest_resolution (h : Hints) (s : String) :
    ((h.hints.map Prod.fst).Nodup →
      ∀ v : String, (s, v) ∈ h.hints → h.suggest s = v)
    ∧ ((∀ p ∈ h.hints, p.1 ≠ s) →
      ∀ k v : String, h.hints.find? (fun p => isSubstrOf p.1 s) = some (k, v) →
        h.suggest s = v)
    ∧ ((∀ p ∈ h.hints, isSubstrOf p.1 s = false) → h.suggest s = "") := by
  refine ⟨?_, ?_, ?_⟩
  · intro hnd v hmem
    simp only [Hints.suggest, find?_key_eq_of_nodup hnd hmem]
  · intro hne k v hfind
    have hnone : h.hints.find? (fun p => p.1 = s) = none := by
      rw [List.find?_eq_none]
      intro p hp
      simpa using hne p hp
    simp only [Hints.suggest, hnone, hfind]
  · intro hsub
    have hnone2 : h.hints.find? (fun p => isSubstrOf p.1 s) = none := by
      rw [List.find?_eq_none]
      intro p hp
      simpa using hsub p hp
    have hnone : h.hints.find? (fun p => p.1 = s) = none := by
      rw [List.find?_eq_none]
      intro p hp
      have := hsub p hp
      intro hcontra
      have hps : p.1 = s := by simpa using hcontra
      rw [hps] at this
      simp [isSubstrOf, List.infix_refl] at this
    simp only [Hints.suggest, hnone, hnone2]

/-- Witness for C7 at a concrete input: the key `abc` matches exactly (and
returns `y`) even though the earlier-loaded key `b` occurs within the
input. -/
theorem hints_suggest_resolution_witness :
    Hints.suggest ⟨[("b", "x"), ("abc", "y")]⟩ "abc" = "y" :=
  (hints_suggest_resolution ⟨[("b", "x"), ("abc", "y")]⟩ "abc").1
    (by decide) "y" (by decide)

/-! ## Error classification helpers: which exceptions each operation raises -/

theorem init_error_valueError (name type_ : String) (tags : List String) (e : PyErr)
    (h : Account.init name type_ tags = .error e) : ∃ m, e = .valueError m := by
  unfold Account.init at h
  split at h
  · injection h with h
    exact ⟨_, h.symm⟩
  · split at h
    · injection h with h
      exact ⟨_, h.symm⟩
    · exact absurd h (by simp)

theorem createFromList_error_valueError (l : List String) (e : PyErr)
    (h : Account.createFromList l = .error e) : ∃ m, e = .valueError m := by
  rcases l with _ | ⟨n, _ | ⟨x, _ | ⟨tg, _ | ⟨d, rest⟩⟩⟩⟩
  · simp only [Account.createFromList] at h
    injection h with h
    exact ⟨_, h.symm⟩
  · exact init_error_valueError _ _ _ _ h
  · simp only [Account.createFromList] at h
    split at h
    · exact init_error_valueError _ _ _ _ h
    · exact init_error_valueError _ _ _ _ h
  · exact init_error_valueError _ _ _ _ h
  · simp only [Account.createFromList] at h
    injection h with h
    exact ⟨_, h.symm⟩

theorem suggestAccount_error_valueError (lg : Ledger) (s tn : String) (e : PyErr)
    (hs : (pySplit s ' ').filter (fun x => x ≠ "") ≠ [])
    (h : lg.suggestAccount s tn = .error e) : ∃ m, e = .valueError m := by
  unfold Ledger.suggestAccount at h
  rcases hl : (pySplit s ' ').filter (fun x => x ≠ "") with _ | ⟨x, rest⟩
  · exact absurd hl hs
  · rw [hl] at h
    exact createFromList_error_valueError _ _ h

theorem make_error_valueError (d : String) (src dest : Account) (a : ℚ)
    (tg : List String) (nt : String) (e : PyErr)
    (h : Transaction.make d src dest a tg nt = .error e) : ∃ m, e = .valueError m := by
  unfold Transaction.make at h
  split at h
  · injection h with h
    exact ⟨_, h.symm⟩
  · exact absurd h (by simp)

theorem parseRow_error_valueError (lg : Ledger) (tn : String) (row : Row) (e : PyErr)
    (hsrc : (pySplit row.src ' ').filter (fun x => x ≠ "") ≠ [])
    (hdest : (pySplit row.dest ' ').filter (fun x => x ≠ "") ≠ [])
    (h : lg.parseRow tn row = .error e) : ∃ m, e = .valueError m := by
  unfold Ledger.parseRow at h
  rcases h1 : lg.suggestAccount row.src tn with e1 | src
  · rw [h1] at h
    injection h with h
    exact h ▸ suggestAccount_error_valueError lg row.src tn e1 hsrc h1
  · rw [h1] at h
    rcases h2 : lg.suggestAccount row.dest tn with e2 | dest
    · rw [h2] at h
      injection h with h
      exact h ▸ suggestAccount_error_valueError lg row.dest tn e2 hdest h2
    · rw [h2] at h
      rcases h3 : parseFloat row.amount with _ | amt
      · rw [h3] at h
        injection h with h
        exact ⟨_, h.symm⟩
      · rw [h3] at h
        exact make_error_valueError _ _ _ _ _ _ _ h

theorem parseRow_indexError_of_blank_src (lg : Ledger) (tn : String) (row : Row)
    (hs : (pySplit row.src ' ').filter (fun x => x ≠ "") = []) :
    lg.parseRow tn row = .error .indexError := by
  have h1 : lg.suggestAccount row.src tn = .error .indexError := by
    simp only [Ledger.suggestAccount, hs]
  simp only [Ledger.parseRow, h1]

theorem loadRows_error_of_exists (lg : Ledger) (csvfile tn : String) (ln : Nat)
    (rows : List Row)
    (hblank : ∀ r ∈ rows, (pySplit r.src ' ').filter (fun x => x ≠ "") ≠ []
        ∧ (pySplit r.dest ' ').filter (fun x => x ≠ "") ≠ [])
    (hex : ∃ r ∈ rows, exceptOk (lg.parseRow tn r) = false) :
    ∃ msg, lg.loadRows csvfile tn ln rows = .error (.valueError msg) := by
  induction rows with
  | nil => simp at hex
  | cons row rest ih =>
      rcases hr : lg.parseRow tn row with e | t
      · obtain ⟨m, hm⟩ := parseRow_error_valueError lg tn row e
          (hblank row (by simp)).1 (hblank row (by simp)).2 hr
        subst hm
        refine ⟨lineErrorMsg csvfile ln, ?_⟩
        simp only [Ledger.loadRows, hr]
      · have hex2 : ∃ r ∈ rest, exceptOk (lg.parseRow tn r) = false := by
          rcases hex with ⟨r, hrmem, hrf⟩
          rcases List.mem_cons.1 hrmem with h0 | hmem
          · subst h0
            rw [hr] at hrf
            simp [exceptOk] at hrf
          · exact ⟨r, hmem, hrf⟩
        obtain ⟨msg, hmsg⟩ :=
          ih (fun r hrm => hblank r (List.mem_cons_of_mem _ hrm)) hex2
        refine ⟨msg, ?_⟩
        simp only [Ledger.loadRows, hr, hmsg]

theorem loadRows_ok_of_all (lg : Ledger) (csvfile tn : String) (ln : Nat)
    (rows : List Row)
    (hall : ∀ r ∈ rows, exceptOk (lg.parseRow tn r) = true) :
    ∃ ts, lg.loadRows csvfile tn ln rows = .ok ts := by
  induction rows with
  | nil => exact ⟨[], rfl⟩
  | cons row rest ih =>
      rcases hr : lg.parseRow tn row with e | t
      · have := hall row (by simp)
        rw [hr] at this
        simp [exceptOk] at this
      · obtain ⟨ts, hts⟩ := ih (fun r hrm => hall r (List.mem_cons_of_mem _ hrm))
        refine ⟨t :: ts, ?_⟩
        simp only [Ledger.loadRows, hr, hts]

theorem loadRows_prepend_ok (lg : Ledger) (csvfile tn : String) (ln : Nat)
    (pre l : List Row)
    (hpre : ∀ r ∈ pre, exceptOk (lg.parseRow tn r) = true) (e : PyErr)
    (hl : lg.loadRows csvfile tn ln l = .error e) :
    lg.loadRows csvfile tn ln (pre ++ l) = .error e := by
  induction pre with
  | nil => simpa using hl
  | cons row rest ih =>
      rcases hr : lg.parseRow tn row with e1 | t
      · have := hpre row (by simp)
        rw [hr] at this
        simp [exceptOk] at this
      · have hrest := ih (fun r hrm => hpre r (List.mem_cons_of_mem _ hrm))
        simp only [List.cons_append, Ledger.loadRows, hr]
        have hra : rest.append l = rest ++ l := rfl
        rw [hra, hrest]

/-! ## Claim C10: a blank account field escapes as IndexError -/

/-- Claim C10: When the whitespace-split token list of `s` is empty,
`Ledger.suggestAccount` fails with `IndexError` (from `l_[0]`), not
`ValueError`; and a CSV row whose src field is such a string - after any
prefix of rows that parse - makes `loadCsv` raise that `IndexError`, escaping
the per-row `ValueError` handler and hence the file-level error contract. -/
theorem suggestAccount_blank_is_indexError
    (lg : Ledger) (thisname csvfile s : String)
    (hs : (pySplit s ' ').filter (fun x => x ≠ "") = [])
    (pre : List Row) (row : Row) (rest : List Row)
    (hpre : ∀ r ∈ pre, exceptOk (lg.parseRow (basenameNoExt csvfile) r) = true)
    (hrow : row.src = s) :
    lg.suggestAccount s thisname = .error .indexError
      ∧ lg.loadCsv csvfile (pre ++ row :: rest) = .error .indexError := by
  constructor
  · simp only [Ledger.suggestAccount, hs]
  · have hrowerr : lg.parseRow (basenameNoExt csvfile) row = .error .indexError :=
      parseRow_indexError_of_blank_src lg (basenameNoExt csvfile) row (hrow ▸ hs)
    have hcons : lg.loadRows csvfile (basenameNoExt csvfile) 1 (row :: rest)
        = .error .indexError := by
      simp only [Ledger.loadRows, hrowerr]
    have hall : lg.loadRows csvfile (basenameNoExt csvfile) 1 (pre ++ row :: rest)
        = .error .indexError :=
      loadRows_prepend_ok lg csvfile (basenameNoExt csvfile) 1 pre (row :: rest)
        hpre .indexError hcons
    simp only [Ledger.loadCsv, hall]

/-- Witness for C10 at a concrete input: the blank src field of
`rowBlankSrc`, preceded by the valid row `rowGood`, escapes `loadCsv` as
`IndexError`. -/
theorem suggestAccount_blank_is_indexError_witness :
    Ledger.suggestAccount (emptyLedger emptyHints) "" "uncategorized"
        = .error .indexError
      ∧ Ledger.loadCsv (emptyLedger emptyHints) "f.csv" [rowGood, rowBlankSrc]
        = .error .indexError := by
  have h := suggestAccount_blank_is_indexError (emptyLedger emptyHints)
    "uncategorized" "f.csv" "" (by decide) [rowGood] rowBlankSrc []
    (by decide) (by decide)
  exact ⟨h.1, h.2⟩

/-! ## Claim C2 (amended): all-or-nothing per file, for non-blank fields -/

/-- Claim C2 (amended): For a CSV file in which every row's src and dest fields
hold at least one non-space character: if any row fails validation, `loadCsv`
raises the file-level `ValueError` and nothing is committed (the error result
carries no ledger - all parsing happens before the commit); and only when
every row parses are the candidates committed, via `addTransactions`.
(Without the non-blank proviso a blank field escapes as `IndexError`;
see the C2 counterexample and C10.) -/
theorem loadCsv_all_or_nothing
    (lg : Ledger) (csvfile : String) (rows : List Row)
    (hblank : ∀ r ∈ rows, (pySplit r.src ' ').filter (fun x => x ≠ "") ≠ []
        ∧ (pySplit r.dest ' ').filter (fun x => x ≠ "") ≠ []) :
    ((∃ r ∈ rows, exceptOk (lg.parseRow (basenameNoExt csvfile) r) = false) →
        ∃ msg, lg.loadCsv csvfile rows = .error (.valueError msg))
    ∧ ((∀ r ∈ rows, exceptOk (lg.parseRow (basenameNoExt csvfile) r) = true) →
        ∃ ts, lg.loadRows csvfile (basenameNoExt csvfile) 1 rows = .ok ts
          ∧ lg.loadCsv csvfile rows = .ok (lg.addTransactions ts (fun _ => true))) := by
  constructor
  · intro hex
    obtain ⟨msg, hmsg⟩ :=
      loadRows_error_of_exists lg csvfile (basenameNoExt csvfile) 1 rows hblank hex
    refine ⟨msg, ?_⟩
    simp only [Ledger.loadCsv, hmsg]
  · intro hall
    obtain ⟨ts, hts⟩ :=
      loadRows_ok_of_all lg csvfile (basenameNoExt csvfile) 1 rows hall
    refine ⟨ts, hts, ?_⟩
    simp only [Ledger.loadCsv, hts]

/-- Witness for C2 (amended) at a concrete input: a file with the valid row
`rowGood` and the invalid row `rowBadDate` (unparseable date) is rejected
with the file-level `ValueError`. -/
theorem loadCsv_all_or_nothing_witness :
    ∃ msg, Ledger.loadCsv (emptyLedger emptyHints) "f.csv" [rowGood, rowBadDate]
      = .error (.valueError msg) :=
  (loadCsv_all_or_nothing (emptyLedger emptyHints) "f.csv" [rowGood, rowBadDate]
      (by decide)).1
    ⟨rowBadDate, by decide, by decide⟩

/-- Counterexample to C2 as stated: the file `[rowBlankSrc]` contains a row
that fails validation (its date does not parse), yet `loadCsv` does not raise
`ValueError`: the blank src field raises `IndexError` first, which the
per-row handler does not catch. -/
theorem loadCsv_valueError_counterexample :
    parseDate "notadate" = none
      ∧ rowBlankSrc.date = "notadate"
      ∧ Ledger.loadCsv (emptyLedger emptyHints) "f.csv" [rowBlankSrc]
          = .error .indexError := by
  refine ⟨by decide, rfl, by decide⟩

/-! ## Claim C3: the balance range condition with both bounds -/

/-- Claim C3 (the code evaluated at the failing input): With both bounds given,
`Account.balance` *includes* a transaction dated strictly after `end` as soon
as `start ≤ date`: the include condition is true at `start = 0`, `end = 5`,
`date = 10`, and the balance of `acctC` over `[0, 5]` is 100, not the 0 the
claimed inclusive-range rule (`start ≤ date ≤ end`) would give.  The Python
or-chain's third disjunct (`start and start <= trans.date`) fires even when
`trans.date > end`. -/
theorem balance_both_bounds_includes_after_end :
    inRange (some 0) (some 5) 10 = true
      ∧ ¬ ((10 : Date) ≤ 5)
      ∧ Account.balance acctC (some 0) (some 5) = 100 := by
  refine ⟨by decide, by decide, ?_⟩
  simp +decide [Account.balance, acctC, inRange]

/-! ## Claim C8: the account-name filter criterion -/

/-- Claim C8 (the code evaluated at the failing input): `in_accounts` tests the
`Account` object itself (not its name) for membership in the set of name
strings, and an account object never equals a string, so the criterion never
matches: for every non-empty name set it accepts nothing, and in particular
`filter_transaction` with only the account-name criterion present rejects
`stAB` even though `stAB.src.name` is a member of the set. -/
theorem filter_accounts_never_matches_names :
    (∀ (A : Finset String) (t : ServerTransaction),
        in_accounts (some A) t = decide (A = ∅))
      ∧ stAB.src.name = "a"
      ∧ filter_transaction stAB none none (some {"a"}) none none none = false := by
  refine ⟨?_, rfl, by decide⟩
  intro A t
  simp [in_accounts, accountEqPyStr]

/-! ## Claim C9: the reported line number -/

/-- Claim C9 (the code evaluated at the failing input): In the file
`[rowGood, rowBadDate]` the first row parses and the second fails validation,
yet the error raised by `loadCsv` reports line 1: the source initializes
`line_num = 1` before the row loop and never increments it. -/
theorem loadCsv_error_always_line_one :
    exceptOk (Ledger.parseRow (emptyLedger emptyHints) "f" rowGood) = true
      ∧ exceptOk (Ledger.parseRow (emptyLedger emptyHints) "f" rowBadDate) = false
      ∧ Ledger.loadCsv (emptyLedger emptyHints) "f.csv" [rowGood, rowBadDate]
          = .error (.valueError (lineErrorMsg "f.csv" 1))
      ∧ lineErrorMsg "f.csv" 1 = "CSV f.csv: Line 1 generated an error." := by
  refine ⟨by decide, by decide, by decide, by decide⟩

/-! ## Claim C4: the double-entry invariant -/

theorem balance_none_foldl (n : String) (ts : List TKey) (b : ℚ) :
    ts.foldl
      (fun balance trans =>
        if inRange none none trans.date then
          let balance := if n = trans.srcName then balance - trans.amount else balance
          if n = trans.destName then balance + trans.amount else balance
        else balance) b
      = b + (ts.map (contrib n)).sum := by
  induction ts generalizing b with
  | nil => simp
  | cons k rest ih =>
      have hstep :
          (if inRange none none k.date then
            let balance := if n = k.srcName then b - k.amount else b
            if n = k.destName then balance + k.amount else balance
          else b) = b + contrib n k := by
        by_cases h1 : n = k.srcName <;> by_cases h2 : n = k.destName <;>
          simp [inRange, contrib, h1, h2] <;> split_ifs <;> ring
      rw [List.foldl_cons]
      rw [hstep, ih, List.map_cons, List.sum_cons]
      ring

/-- The unbounded balance is the signed sum of the contributions of the
transactions in the account's index. -/
theorem balance_none_eq (a : Account) :
    a.balance none none = (a.transactions.map (contrib a.name)).sum := by
  unfold Account.balance
  rw [balance_none_foldl a.name a.transactions 0, zero_add]

theorem sumA_cons (p : String × Account) (rest : List (String × Account)) :
    sumA (p :: rest) = p.2.balance none none + sumA rest := by
  simp [sumA]

theorem sumA_dictSet (m : List (String × Account)) (n : String) (a a2 : Account)
    (h : dictGet m n = some a) :
    sumA (dictSet m n a2)
      = sumA m - a.balance none none + a2.balance none none := by
  induction m with
  | nil => simp [dictGet] at h
  | cons p rest ih =>
      obtain ⟨k, v⟩ := p
      by_cases hk : k = n
      · simp only [dictGet, if_pos hk] at h
        injection h with h
        subst h
        simp only [dictSet, if_pos hk, sumA_cons]
        ring
      · simp only [dictGet, if_neg hk] at h
        simp only [dictSet, if_neg hk, sumA_cons, ih h]
        ring

theorem accountsNamed_dictSet (m : List (String × Account)) (n : String) (a : Account)
    (ha : a.name = n) (hm : accountsNamed m) : accountsNamed (dictSet m n a) := by
  induction m with
  | nil =>
      intro p hp
      simp only [dictSet, List.mem_singleton] at hp
      subst hp
      exact ha
  | cons q rest ih =>
      obtain ⟨k, v⟩ := q
      have hv : v.name = k := hm (k, v) (by simp)
      have hrest : accountsNamed rest := fun p hp => hm p (List.mem_cons_of_mem _ hp)
      by_cases hk : k = n
      · intro p hp
        simp only [dictSet, if_pos hk, List.mem_cons] at hp
        rcases hp with h0 | h0
        · subst h0
          rw [ha, hk]
        · exact hrest p h0
      · intro p hp
        simp only [dictSet, if_neg hk, List.mem_cons] at hp
        rcases hp with h0 | h0
        · subst h0
          exact hv
        · exact ih hrest p h0

theorem addAccount_invariant (lg : Ledger) (acc : Account)
    (hm : accountsNamed lg.accounts) :
    accountsNamed (lg.addAccount acc).1.accounts
      ∧ sumA (lg.addAccount acc).1.accounts = sumA lg.accounts
      ∧ (lg.addAccount acc).2.name = acc.name
      ∧ dictGet (lg.addAccount acc).1.accounts acc.name = some (lg.addAccount acc).2
      ∧ (∀ n, n ≠ acc.name →
          dictGet (lg.addAccount acc).1.accounts n = dictGet lg.accounts n)
      ∧ (lg.addAccount acc).1.transactions = lg.transactions
      ∧ (lg.addAccount acc).1.uniqueTransactions = lg.uniqueTransactions := by
  rcases hc : dictGet lg.accounts acc.name with _ | canon
  · simp only [Ledger.addAccount, hc]
    refine ⟨?_, ?_, trivial, dictGet_dictSet_self .., ?_, trivial, trivial⟩
    · exact accountsNamed_dictSet _ _ _ rfl hm
    · rw [dictSet_of_get_none _ _ _ hc]
      simp [sumA, Account.balance]
    · intro n hn
      exact dictGet_dictSet_ne _ _ _ _ hn
  · have hname : canon.name = acc.name := hm (acc.name, canon) (dictGet_mem hc)
    simp only [Ledger.addAccount, hc]
    refine ⟨?_, ?_, ?_, dictGet_dictSet_self .., ?_, trivial, trivial⟩
    · exact accountsNamed_dictSet _ _ _ (by simpa using hname) hm
    · rw [sumA_dictSet _ _ canon _ hc]
      have hb : ({ canon with
            tags := canon.tags ∪ acc.tags.filter (fun x => x ≠ "") } : Account).balance
            none none = canon.balance none none := rfl
      rw [hb]
      ring
    · simpa using hname
    · intro n hn
      exact dictGet_dictSet_ne _ _ _ _ hn

theorem accountsNamed_appendTransTo (m : List (String × Account)) (n : String)
    (k : TKey) (hm : accountsNamed m) : accountsNamed (appendTransTo m n k) := by
  unfold appendTransTo
  rcases hc : dictGet m n with _ | a
  · exact hm
  · have hname : a.name = n := hm (n, a) (dictGet_mem hc)
    exact accountsNamed_dictSet _ _ _ (by simpa using hname) hm

theorem dictGet_appendTransTo_isSome (m : List (String × Account)) (n n' : String)
    (k : TKey) (h : (dictGet m n').isSome) :
    (dictGet (appendTransTo m n k) n').isSome := by
  unfold appendTransTo
  rcases hc : dictGet m n with _ | a
  · exact h
  · by_cases hn : n' = n
    · subst hn
      rw [dictGet_dictSet_self]
      simp
    · rw [dictGet_dictSet_ne _ _ _ _ hn]
      exact h

theorem sumA_appendTransTo (m : List (String × Account)) (n : String) (k : TKey)
    (hm : accountsNamed m) (h : (dictGet m n).isSome) :
    sumA (appendTransTo m n k) = sumA m + contrib n k := by
  obtain ⟨a, ha⟩ := Option.isSome_iff_exists.1 h
  have hname : a.name = n := hm (n, a) (dictGet_mem ha)
  unfold appendTransTo
  rw [ha, sumA_dictSet _ _ a _ ha]
  have hb : ({ a with transactions := a.transactions ++ [k] } : Account).balance
        none none = a.balance none none + contrib a.name k := by
    rw [balance_none_eq, balance_none_eq]
    simp
  rw [hb, hname]
  ring

theorem contrib_srcName_add_destName (d : Date) (n1 n2 : String) (q : ℚ) :
    contrib n1 { date := d, srcName := n1, destName := n2, amount := q }
      + contrib n2 { date := d, srcName := n1, destName := n2, amount := q } = 0 := by
  by_cases hnd : n1 = n2
  · subst hnd
    simp [contrib]
  · simp [contrib, hnd, Ne.symm hnd]

theorem sumA_double_append (M : List (String × Account)) (n1 n2 : String)
    (d : Date) (q : ℚ) (hM : accountsNamed M)
    (h1 : (dictGet M n1).isSome) (h2 : (dictGet M n2).isSome) :
    sumA (appendTransTo
        (appendTransTo M n1 { date := d, srcName := n1, destName := n2, amount := q })
        n2 { date := d, srcName := n1, destName := n2, amount := q })
      = sumA M := by
  rw [sumA_appendTransTo _ _ _ (accountsNamed_appendTransTo M n1 _ hM)
        (dictGet_appendTransTo_isSome M n1 n2 _ h2),
      sumA_appendTransTo M n1 _ hM h1,
      add_assoc, contrib_srcName_add_destName, add_zero]

/-- The account mapping produced by the fresh-identity branch of
`addTransaction`: both canonical accounts' indexes extended with the
transaction's identity tuple. -/
theorem addTransaction_new_accounts (lg : Ledger) (t : Transaction)
    (hc : findCanon lg.uniqueTransactions t.key = none) :
    (lg.addTransaction t).1.accounts =
      appendTransTo
        (appendTransTo ((lg.addAccount t.src).1.addAccount t.dest).1.accounts
          (lg.addAccount t.src).2.name
          { date := t.date, srcName := (lg.addAccount t.src).2.name,
            destName := ((lg.addAccount t.src).1.addAccount t.dest).2.name,
            amount := t.amount })
        ((lg.addAccount t.src).1.addAccount t.dest).2.name
        { date := t.date, srcName := (lg.addAccount t.src).2.name,
          destName := ((lg.addAccount t.src).1.addAccount t.dest).2.name,
          amount := t.amount } := by
  simp only [Ledger.addTransaction, hc]
  simp only [Transaction.key]

theorem addTransaction_preserves_inv (lg : Ledger) (t : Transaction)
    (h : LedgerInv lg) : LedgerInv (lg.addTransaction t).1 := by
  obtain ⟨hm, hs⟩ := h
  rw [Ledger.sumBalances] at hs
  rcases hc : findCanon lg.uniqueTransactions t.key with _ | internal
  · have e1 := addAccount_invariant lg t.src hm
    have e2 := addAccount_invariant (lg.addAccount t.src).1 t.dest e1.1
    have h1s : (dictGet ((lg.addAccount t.src).1.addAccount t.dest).1.accounts
        ((lg.addAccount t.src).2.name)).isSome := by
      rw [e1.2.2.1]
      by_cases hnd : t.src.name = t.dest.name
      · rw [hnd, e2.2.2.2.1]
        simp
      · rw [e2.2.2.2.2.1 t.src.name hnd, e1.2.2.2.1]
        simp
    have h2s : (dictGet ((lg.addAccount t.src).1.addAccount t.dest).1.accounts
        (((lg.addAccount t.src).1.addAccount t.dest).2.name)).isSome := by
      rw [e2.2.2.1, e2.2.2.2.1]
      simp
    constructor
    · rw [addTransaction_new_accounts lg t hc]
      exact accountsNamed_appendTransTo _ _ _
        (accountsNamed_appendTransTo _ _ _ e2.1)
    · rw [Ledger.sumBalances, addTransaction_new_accounts lg t hc,
        sumA_double_append _ _ _ _ _ e2.1 h1s h2s, e2.2.1, e1.2.1]
      exact hs
  · simp only [Ledger.addTransaction, hc]
    exact ⟨hm, hs⟩

theorem addTransactions_preserves_inv (lg : Ledger) (ts : List Transaction)
    (func : Transaction → Bool) (h : LedgerInv lg) :
    LedgerInv (lg.addTransactions ts func).1 := by
  induction ts generalizing lg with
  | nil => exact h
  | cons t rest ih =>
      simp only [Ledger.addTransactions]
      by_cases hf : func t
      · rw [if_pos hf]
        exact ih _ (addTransaction_preserves_inv lg t h)
      · rw [if_neg hf]
        exact ih _ h

theorem loadCsv_preserves_inv (lg lg2 : Ledger) (csvfile : String) (rows : List Row)
    (ts : List Transaction) (h : LedgerInv lg)
    (hok : lg.loadCsv csvfile rows = .ok (lg2, ts)) : LedgerInv lg2 := by
  simp only [Ledger.loadCsv] at hok
  rcases hr : lg.loadRows csvfile (basenameNoExt csvfile) 1 rows with e | newtrans
  · rw [hr] at hok
    exact absurd hok (by simp)
  · rw [hr] at hok
    injection hok with hok
    have hinv := addTransactions_preserves_inv lg newtrans (fun _ => true) h
    rw [hok] at hinv
    exact hinv

theorem reachable_ledgerInv {lg : Ledger} (h : Reachable lg) : LedgerInv lg := by
  induction h with
  | empty hints =>
      constructor
      · intro p hp
        simp [emptyLedger] at hp
      · simp [Ledger.sumBalances, sumA, emptyLedger]
  | addTrans t _ ih => exact addTransaction_preserves_inv _ t ih
  | load csvfile rows _ hok ih => exact loadCsv_preserves_inv _ _ csvfile rows _ ih hok

/-- Claim C4: After any sequence of `addTransaction` calls and successful
`loadCsv` calls starting from an empty ledger, the sum over every account in
the account mapping of that account's unbounded balance is zero: each
committed transaction subtracts its amount at its src account and adds it at
its dest account. -/
theorem reachable_sum_balances_zero (lg : Ledger) (h : Reachable lg) :
    lg.sumBalances = 0 :=
  (reachable_ledgerInv h).2

/-- Witness for C4: the ledger obtained by committing `tX` to an empty
ledger has total balance zero. -/
theorem reachable_sum_balances_zero_witness : lgX.sumBalances = 0 :=
  reachable_sum_balances_zero lgX
    (Reachable.addTrans tX (Reachable.empty emptyHints))

end Daybook
